import Mathlib

/-!
Verification development for the envx cryptographic core.

The TypeScript sources are shallowly embedded as executable Lean functions:

* `src/src/crypto/encrypt.ts` (`encryptValues`) and `src/src/crypto/decrypt.ts`
  (`decryptValues`), plus the second decrypt implementation found in the
  repository (`decryptValues` of the file whose header reads
  "AES-256-GCM decryption for environment variables", embedded here as
  `decryptValuesStrict`).
* `src/src/crypto/kdf.ts` (`deriveKeyArgon2id`, `deriveKeyScrypt`, first
  implementation in the file, the one using a `finally { wipeBuffer(params.salt) }`
  block).
* The container format module (`validateEnvx`, `parseEnvx`, `buildEnvxFile`),
  whose code appears in `src/src/index.ts`.
* The `Envx` facade of `src/src/lib/envx.ts`.  That file concatenates two
  implementations of the class; they are embedded as `EnvxA.*` (first copy)
  and `EnvxB.*` (second copy).

External primitives that the code calls but does not implement are made
explicit parameters:

* AES-256-GCM (`node:crypto` createCipheriv/createDecipheriv) is a parameter
  of type `AeadScheme`; theorems assume exactly the properties guaranteed by
  the library (16-byte tag, byte-valued output, authenticated round-trip).
* Argon2id / scrypt (`argon2`, `node:crypto` scrypt) are function parameters
  of the KDF embeddings.
* `randomBytes` is modelled as an explicit stream of values consumed in call
  order.
* base64 (`Buffer.toString('base64')` / `Buffer.from(s, 'base64')`) is
  modelled concretely below (`b64encode` / `b64decode`) with a proved
  round-trip on byte lists.

Buffers are `List Nat` with entries understood to be bytes (`< 256` where it
matters); JavaScript `Record<string, string>` objects are association lists
`List (String × String)` with distinct keys, iterated in insertion order as
`Object.entries` does.
-/

/-- Standard base64 alphabet: sextet value to character. -/
def sixToChar (n : Nat) : Char :=
  if n < 26 then Char.ofNat (65 + n)
  else if n < 52 then Char.ofNat (71 + n)
  else if n < 62 then Char.ofNat (n - 4)
  else if n = 62 then '+'
  else '/'

/-- Standard base64 alphabet: character back to sextet value; `none` for
characters outside the alphabet (in particular for the padding character). -/
def charToSix (c : Char) : Option Nat :=
  let n := c.toNat
  if 65 ≤ n ∧ n ≤ 90 then some (n - 65)
  else if 97 ≤ n ∧ n ≤ 122 then some (n - 71)
  else if 48 ≤ n ∧ n ≤ 57 then some (n + 4)
  else if n = 43 then some 62
  else if n = 47 then some 63
  else none

/-- Pack bytes into base64 sextets, three bytes to four sextets, with the
usual trailing-group handling. -/
def bytesToSextets : List Nat → List Nat
  | [] => []
  | [b1] => [b1 / 4, b1 % 4 * 16]
  | [b1, b2] => [b1 / 4, b1 % 4 * 16 + b2 / 16, b2 % 16 * 4]
  | b1 :: b2 :: b3 :: rest =>
      b1 / 4 :: (b1 % 4 * 16 + b2 / 16) :: (b2 % 16 * 4 + b3 / 64) :: b3 % 64 :: bytesToSextets rest

/-- Unpack base64 sextets into bytes, four sextets to three bytes, dropping
the padding bits of a short trailing group exactly as the Node decoder does. -/
def sextetsToBytes : List Nat → List Nat
  | [] => []
  | [_] => []
  | [s1, s2] => [s1 * 4 + s2 / 16]
  | [s1, s2, s3] => [s1 * 4 + s2 / 16, s2 % 16 * 16 + s3 / 4]
  | s1 :: s2 :: s3 :: s4 :: rest =>
      (s1 * 4 + s2 / 16) :: (s2 % 16 * 16 + s3 / 4) :: (s3 % 4 * 64 + s4) :: sextetsToBytes rest

/-- Base64 padding characters appended for a byte string of the given length. -/
def b64pad (len : Nat) : List Char :=
  if len % 3 = 1 then ['=', '=']
  else if len % 3 = 2 then ['=']
  else []

/-- Model of `Buffer.prototype.toString('base64')`. -/
def b64encode (bs : List Nat) : String :=
  String.mk ((bytesToSextets bs).map sixToChar ++ b64pad bs.length)

/-- Model of `Buffer.from(s, 'base64')`: total, ignores characters outside
the alphabet (Node's decoder is forgiving), regroups sextets into bytes. -/
def b64decode (s : String) : List Nat :=
  sextetsToBytes (s.data.filterMap charToSix)

/-- Helper for `strContains`: does `needle` occur as a contiguous run of `hay`? -/
def infixOfAux (needle : List Char) : List Char → Bool
  | [] => needle.isEmpty
  | c :: cs => needle.isPrefixOf (c :: cs) || infixOfAux needle cs

/-- Substring test, to formalize an error message "naming" a key. -/
def strContains (hay needle : String) : Bool := infixOfAux needle.data hay.data

/-- Abstract interface of the AES-256-GCM primitive that the cipher module
calls (`createCipheriv` / `createDecipheriv` of `node:crypto`).
`enc key nonce plaintext` returns the authentication tag and the ciphertext
bytes (the source prepends the tag to the ciphertext afterwards);
`dec key nonce tag ct` returns the plaintext on successful tag verification
and `none` when the library throws. -/
structure AeadScheme where
  enc : List Nat → List Nat → String → Except String (List Nat × List Nat)
  dec : List Nat → List Nat → List Nat → List Nat → Option String

/-- Error kinds of `src/src/utils/errors.ts` (one constructor per error
class), with the message.  `generic` stands for a plain `Error` thrown by
the second copy of the `Envx` class in `src/src/lib/envx.ts`. -/
inductive EnvxErr
  | validation (msg : String)
  | decryption (msg : String)
  | kdf (msg : String)
  | fileExists (msg : String)
  | missingKey (msg : String)
  | generic (msg : String)
deriving DecidableEq

/-- The per-entry loop body of `encryptValues` (`src/src/crypto/encrypt.ts`
lines 63-96): generate the next nonce from the RNG stream, AEAD-encrypt,
prepend the 16-byte tag to the ciphertext, store nonce and tag‖ciphertext
base64-encoded under the variable name.  `i` is the index into the RNG
stream (one `randomBytes(12)` call per entry, in iteration order).  Any
error thrown while encrypting a value is wrapped in a `DecryptionError`
with an "Encryption failed" message. -/
def encryptLoop (A : AeadScheme) (key : List Nat) (rng : Nat → List Nat) :
    Nat → List (String × String) →
      Except EnvxErr (List (String × String) × List (String × String))
  | _, [] => .ok ([], [])
  | i, (name, value) :: rest =>
    match A.enc key (rng i) value with
    | .error e => .error (.decryption ("Encryption failed: " ++ e))
    | .ok (tag, ct) =>
      match encryptLoop A key rng (i + 1) rest with
      | .error e => .error e
      | .ok (nm, vm) =>
          .ok ((name, b64encode (rng i)) :: nm, (name, b64encode (tag ++ ct)) :: vm)

/-- `encryptValues` of `src/src/crypto/encrypt.ts`: validate the key length
first (a key of length ≠ 32 raises a `DecryptionError` before any value is
touched), then encrypt every entry independently.  The result is the pair
(nonceMap, values).  Note the source keeps no record of nonces already used
in the batch: each entry just takes the next RNG output. -/
def encryptValues (A : AeadScheme) (rng : Nat → List Nat)
    (plaintext : List (String × String)) (key : List Nat) :
    Except EnvxErr (List (String × String) × List (String × String)) :=
  if key.length ≠ 32 then
    .error (.decryption
      ("Invalid key length: expected 32 bytes, got " ++ toString key.length ++ " bytes"))
  else encryptLoop A key rng 0 plaintext

/-- How the processing of one entry of the cipher map can fail, mirroring
the three failure sites shared by both decrypt implementations. -/
inductive EntryFailure
  | missingNonce
  | invalidCiphertextLength
  | authFailure
deriving DecidableEq

/-- Processing of a single entry of the cipher map, common to both decrypt
implementations (`src/src/crypto/decrypt.ts` lines 24-59 and the second
implementation): look up the nonce (a missing or empty `nonceMap[name]` is
falsy in JavaScript and reported as a missing nonce), base64-decode, require
at least the 16 tag bytes, split tag ‖ ciphertext, and run authenticated
decryption. -/
def decryptEntry (A : AeadScheme) (key : List Nat) (nonceMap : List (String × String))
    (name : String) (cipherB64 : String) : Except EntryFailure String :=
  match List.lookup name nonceMap with
  | none => .error .missingNonce
  | some nonceB64 =>
    if nonceB64 = "" then .error .missingNonce
    else
      let combined := b64decode cipherB64
      if combined.length < 16 then .error .invalidCiphertextLength
      else
        match A.dec key (b64decode nonceB64) (combined.take 16) (combined.drop 16) with
        | some plain => .ok plain
        | none => .error .authFailure

/-- The entry loop of `decryptValues` (`src/src/crypto/decrypt.ts`): every
entry of the cipher map is processed; successes are accumulated in `result`
and failures in `errors`, both in iteration order. -/
def decryptLoop (A : AeadScheme) (key : List Nat) (nonceMap : List (String × String)) :
    List (String × String) → List (String × String) × List (String × EntryFailure)
  | [] => ([], [])
  | (name, c) :: rest =>
    let acc := decryptLoop A key nonceMap rest
    match decryptEntry A key nonceMap name c with
    | .ok p => ((name, p) :: acc.1, acc.2)
    | .error r => (acc.1, (name, r) :: acc.2)

/-- `decryptValues` of `src/src/crypto/decrypt.ts`: key length gate first,
then process every entry, collecting per-entry failures; if any entry
failed, the whole call throws a single `DecryptionError` and the plaintext
collected so far is never returned. -/
def decryptValues (A : AeadScheme) (encrypted nonceMap : List (String × String))
    (key : List Nat) : Except EnvxErr (List (String × String)) :=
  if key.length ≠ 32 then
    .error (.decryption "Invalid key length, expected 32 bytes")
  else
    let acc := decryptLoop A key nonceMap encrypted
    if acc.2.length > 0 then
      .error (.decryption "Decryption failed for one or more values")
    else .ok acc.1

/-- The second `decryptValues` implementation in the repository (the file
with header "AES-256-GCM decryption for environment variables"): same
per-entry checks, but the first failing entry throws immediately and aborts
the loop. -/
def decryptValuesStrict (A : AeadScheme) (encrypted nonceMap : List (String × String))
    (key : List Nat) : Except EnvxErr (List (String × String)) :=
  if key.length ≠ 32 then
    .error (.decryption
      ("Invalid key length: expected 32 bytes, got " ++ toString key.length ++ " bytes"))
  else strictLoop A key nonceMap encrypted
where
  strictLoop (A : AeadScheme) (key : List Nat) (nonceMap : List (String × String)) :
      List (String × String) → Except EnvxErr (List (String × String))
    | [] => .ok []
    | (name, c) :: rest =>
      match decryptEntry A key nonceMap name c with
      | .error .missingNonce =>
          .error (.decryption ("Missing nonce for variable: " ++ name))
      | .error .invalidCiphertextLength =>
          .error (.decryption ("Invalid ciphertext length for variable: " ++ name))
      | .error .authFailure =>
          .error (.decryption "Decryption failed: wrong key, tampered data, or file corruption")
      | .ok p =>
        match strictLoop A key nonceMap rest with
        | .error e => .error e
        | .ok r => .ok ((name, p) :: r)

/-- Argon2id cost parameters (`Argon2Params` without the salt field; the
salt is threaded separately so the buffer lifecycle can be modelled). -/
structure Argon2Params where
  memory : Nat
  time : Nat
  parallelism : Nat
deriving DecidableEq

/-- scrypt parameters. -/
structure ScryptParams where
  N : Nat
  r : Nat
  p : Nat
  dkLen : Nat
deriving DecidableEq

/-- `DEFAULT_ARGON2_PARAMS` of `src/src/crypto/kdf.ts`. -/
def DEFAULT_ARGON2_PARAMS : Argon2Params := { memory := 65536, time := 3, parallelism := 1 }

/-- `DEFAULT_SCRYPT_PARAMS` of `src/src/crypto/kdf.ts`. -/
def DEFAULT_SCRYPT_PARAMS : ScryptParams := { N := 2 ^ 15, r := 8, p := 1, dkLen := 32 }

/-- `wipeBuffer` (memory utility): `buf.fill(0)` — the buffer keeps its
length, every byte becomes zero.  (`wipeBuffer(undefined)` is a no-op,
modelled at call sites by not applying this function.) -/
def wipeBufferModel (b : List Nat) : List Nat := List.replicate b.length 0

/-- Successful output of a KDF call: the derived key and the `meta` block
snapshot (`meta.salt` is the base64 of the salt, stringified while building
the return value, i.e. before the `finally` block runs). -/
structure KdfSuccess where
  key : List Nat
  metaType : String
  metaSalt : String
deriving DecidableEq

/-- Full observable outcome of a KDF call.  `saltBufAfter` is the content
of the salt buffer after the call returns: the returned `salt` field and a
caller-supplied `params.salt` alias this same buffer. -/
structure KdfOutcome where
  result : Except EnvxErr KdfSuccess
  saltBufAfter : List Nat

/-- `deriveKeyArgon2id` of `src/src/crypto/kdf.ts` (first implementation,
lines 48-81).  `prim` is the external `argon2.hash` primitive; `freshSalt`
is the `randomBytes(16)` output consumed only when no salt is supplied.
The `finally { wipeBuffer(params.salt) }` block runs after the return value
(including the `meta.salt` base64 string) has been built, so on every exit
path a caller-supplied salt buffer is zero-filled, while an internally
generated salt is untouched (`wipeBuffer(undefined)` returns immediately). -/
def deriveKeyArgon2id (prim : List Nat → List Nat → Argon2Params → Except String (List Nat))
    (password : List Nat) (params : Argon2Params) (suppliedSalt : Option (List Nat))
    (freshSalt : List Nat) : KdfOutcome :=
  let salt := suppliedSalt.getD freshSalt
  { result :=
      match prim password salt params with
      | .ok key => .ok { key := key, metaType := "argon2id", metaSalt := b64encode salt }
      | .error e => .error (.kdf ("Argon2id derivation failed: " ++ e))
    saltBufAfter :=
      match suppliedSalt with
      | some b => wipeBufferModel b
      | none => freshSalt }

/-- `deriveKeyScrypt` of `src/src/crypto/kdf.ts` (first implementation,
lines 83-113), same structure as `deriveKeyArgon2id` with the scrypt
primitive. -/
def deriveKeyScrypt (prim : List Nat → List Nat → ScryptParams → Except String (List Nat))
    (password : List Nat) (params : ScryptParams) (suppliedSalt : Option (List Nat))
    (freshSalt : List Nat) : KdfOutcome :=
  let salt := suppliedSalt.getD freshSalt
  { result :=
      match prim password salt params with
      | .ok key => .ok { key := key, metaType := "scrypt", metaSalt := b64encode salt }
      | .error e => .error (.kdf ("scrypt derivation failed: " ++ e))
    saltBufAfter :=
      match suppliedSalt with
      | some b => wipeBufferModel b
      | none => freshSalt }

/-- The `kdf` block of a container: type tag and optional salt. -/
structure KdfInfo where
  type : String
  salt : Option String
deriving DecidableEq

/-- A candidate container of the right JSON shape (a parsed `.envx` object).
Structural constraints of the JSON schema (required fields, primitive
types) are enforced by this Lean type; the value constraints are checked by
`validateEnvx`. -/
structure EnvxCandidate where
  version : Nat
  cipher : String
  kdf : KdfInfo
  nonce_map : List (String × String)
  values : List (String × String)
  metaCreatedAt : String
  metaRotatedFrom : Option String
deriving DecidableEq

/-- The first key in `keys` whose entry in the map `m` is falsy in
JavaScript — absent, or present with the empty string as its value.  This
is the throw point of the `for (const key of Object.keys(...))` loops of
`validateEnvx`. -/
def findFalsy (m : List (String × String)) : List String → Option String
  | [] => none
  | k :: rest =>
      match List.lookup k m with
      | none => some k
      | some v => if v = "" then some k else findFalsy m rest

/-- The AJV schema gate (`validateFn`) of the format module.  The module
compiles `./schema.json`; that file itself is not under `src/`, so its
value constraints are taken from the copy recorded in the repository
architecture document: `version` is the literal 1, `cipher` the one
supported identifier, `kdf.type` one of the three tags.  The structural
constraints (required fields, primitive types) are enforced by the
`EnvxCandidate` type. -/
def schemaCheck (c : EnvxCandidate) : Bool :=
  c.version == 1 && c.cipher == "aes-256-gcm" &&
    (c.kdf.type == "none" || c.kdf.type == "argon2id" || c.kdf.type == "scrypt")

/-- `validateEnvx` of the container format module (its code appears in
`src/src/index.ts` lines 51-77): the AJV schema first (its joined message
text is abbreviated here to a fixed string; nothing below depends on it),
then the cross-field loops — every key of `values` must have a truthy
`nonce_map` entry, else a ValidationError naming that key, and every key of
`nonce_map` a truthy `values` entry, else a ValidationError naming that key
— then the explicit version and cipher checks. -/
def validateEnvx (data : EnvxCandidate) : Except EnvxErr EnvxCandidate :=
  if ¬ schemaCheck data then .error (.validation "schema validation failed")
  else
    match findFalsy data.nonce_map (data.values.map Prod.fst) with
    | some k => .error (.validation ("Missing nonce for key " ++ k))
    | none =>
      match findFalsy data.values (data.nonce_map.map Prod.fst) with
      | some k => .error (.validation ("Missing ciphertext for key " ++ k))
      | none =>
        if data.version ≠ 1 then
          .error (.validation ("Unsupported version " ++ toString data.version))
        else if data.cipher ≠ "aes-256-gcm" then
          .error (.validation ("Unsupported cipher " ++ data.cipher))
        else .ok data

/-- `buildEnvxFile` of the format module (`src/src/index.ts` lines 91-97):
spreads the payload fields under a stamped `version: 1` and the supported
cipher identifier (here with the `meta` fields the callers pass). -/
def buildEnvxFile (kdf : KdfInfo) (nonce_map values : List (String × String))
    (createdAt : String) (rotatedFrom : Option String) : EnvxCandidate :=
  { version := 1, cipher := "aes-256-gcm", kdf := kdf, nonce_map := nonce_map,
    values := values, metaCreatedAt := createdAt, metaRotatedFrom := rotatedFrom }

/-- `parseEnvx` of the format module (`src/src/index.ts` lines 79-89):
`JSON.parse` — well-formedness is presupposed by the typed candidate — then
`validateEnvx`; a ValidationError is rethrown unchanged. -/
def parseEnvx (f : EnvxCandidate) : Except EnvxErr EnvxCandidate := validateEnvx f

/-- A file on disk: either raw bytes (a key file) or a written container
(a `.envx` JSON file). -/
inductive FsFile
  | bytes (bs : List Nat)
  | container (f : EnvxCandidate)
deriving DecidableEq

/-- The filesystem as an association list from path to file; a write
prepends, so `List.lookup` returns the most recent write. -/
abbrev EnvxFs := List (String × FsFile)

/-- `existsSync`. -/
def fsExists (fs : EnvxFs) (p : String) : Bool := (List.lookup p fs).isSome

/-- `writeFileSync` (overwrites: the new entry shadows any older one). -/
def fsWrite (fs : EnvxFs) (p : String) (f : FsFile) : EnvxFs := (p, f) :: fs

/-- Return value of `Envx.init`. -/
structure InitResult where
  keyPath : String
  salt : Option String
deriving DecidableEq

/-- `Envx.loadKey` (first copy of the class): the key file must exist and
hold exactly 32 bytes.  Reading a container file as a key yields its JSON
text, which never has length 32 for these objects. -/
def EnvxA.loadKey (fs : EnvxFs) (keyPath : String) : Except EnvxErr (List Nat) :=
  match List.lookup keyPath fs with
  | none => .error (.missingKey ("Key file not found at " ++ keyPath))
  | some (.bytes k) =>
      if k.length ≠ 32 then
        .error (.validation ("Invalid key file: expected 32 bytes, got " ++ toString k.length))
      else .ok k
  | some (.container _) =>
      .error (.validation "Invalid key file: expected 32 bytes")

/-- `Envx.init` — FIRST copy of the class in `src/src/lib/envx.ts` (lines
20-45).  Password mode guards with `if (!password)`: only an absent
password is rejected; an empty `Buffer` is truthy in JavaScript, so a
zero-length password slips through to key derivation.  `randomKey` is the
`randomBytes(32)` output used in random mode; `freshSalt` the
`randomBytes(16)` salt consumed by the KDF. -/
def EnvxA.init (prim : List Nat → List Nat → Argon2Params → Except String (List Nat))
    (fs : EnvxFs) (keyPath : String) (mode : String) (password : Option (List Nat))
    (randomKey freshSalt : List Nat) : Except EnvxErr (EnvxFs × InitResult) :=
  if fsExists fs keyPath then
    .error (.fileExists ("Key file already exists at " ++ keyPath))
  else if mode = "random" then
    .ok (fsWrite fs keyPath (.bytes randomKey), { keyPath := keyPath, salt := none })
  else
    match password with
    | none => .error (.validation "Password required for password-based key derivation")
    | some pw =>
        match (deriveKeyArgon2id prim pw DEFAULT_ARGON2_PARAMS none freshSalt).result with
        | .error e => .error e
        | .ok r =>
            .ok (fsWrite fs keyPath (.bytes r.key),
              { keyPath := keyPath, salt := some r.metaSalt })

/-- `Envx.init` — SECOND copy of the class in `src/src/lib/envx.ts` (lines
228-255).  Password mode guards with
`if (!password || password.length === 0)`, so both an absent and an empty
password are rejected (with a plain `Error`). -/
def EnvxB.init (prim : List Nat → List Nat → Argon2Params → Except String (List Nat))
    (fs : EnvxFs) (keyPath : String) (mode : String) (password : Option (List Nat))
    (randomKey freshSalt : List Nat) : Except EnvxErr (EnvxFs × InitResult) :=
  if fsExists fs keyPath then
    .error (.generic ("Key file already exists at " ++ keyPath))
  else if mode = "random" then
    .ok (fsWrite fs keyPath (.bytes randomKey), { keyPath := keyPath, salt := none })
  else
    match password with
    | none => .error (.generic "Password required for password-based key derivation")
    | some pw =>
        if pw.length = 0 then
          .error (.generic "Password required for password-based key derivation")
        else
          match (deriveKeyArgon2id prim pw DEFAULT_ARGON2_PARAMS none freshSalt).result with
          | .error e => .error e
          | .ok r =>
              .ok (fsWrite fs keyPath (.bytes r.key),
                { keyPath := keyPath, salt := some r.metaSalt })

/-- `Envx.decrypt` (first copy), reduced to its data flow: read the stored
container, `parseEnvx`, load the key from the configured key path, then
`decryptValues`. -/
def EnvxA.decryptOp (A : AeadScheme) (fs : EnvxFs) (keyPath envxPath : String) :
    Except EnvxErr (List (String × String)) :=
  match List.lookup envxPath fs with
  | none => .error (.validation ("Input file not found: " ++ envxPath))
  | some (.bytes _) => .error (.validation "Invalid envx file format: not an envx JSON object")
  | some (.container f) =>
      match parseEnvx f with
      | .error e => .error e
      | .ok parsed =>
          match EnvxA.loadKey fs keyPath with
          | .error e => .error e
          | .ok key => decryptValues A parsed.values parsed.nonce_map key

/-- Observable outcome of `Envx.rotateKey`: thrown error or success, the
final filesystem, and the instance field `this.keyPath` after the call. -/
structure RotateOutcome where
  result : Except EnvxErr Unit
  fs : EnvxFs
  keyPath : String

/-- `Envx.rotateKey` (first copy, `src/src/lib/envx.ts` lines 129-163):
refuse an occupied `newKeyPath`, require the container, decrypt with the
old key, then write the fresh key to `newKeyPath` and reassign
`this.keyPath := newKeyPath` BEFORE re-encrypting; only then load the new
key, re-encrypt, and rewrite the container (recording the old key path in
`meta.rotated_from`). -/
def EnvxA.rotateKey (A : AeadScheme) (rng : Nat → List Nat) (fs : EnvxFs)
    (keyPath envxPath newKeyPath : String) (newKey : List Nat) (now : String) :
    RotateOutcome :=
  if fsExists fs newKeyPath then
    { result := .error (.fileExists ("New key path already exists: " ++ newKeyPath)),
      fs := fs, keyPath := keyPath }
  else if ¬ fsExists fs envxPath then
    { result := .error (.validation ("Envx file not found: " ++ envxPath)),
      fs := fs, keyPath := keyPath }
  else
    match EnvxA.decryptOp A fs keyPath envxPath with
    | .error e => { result := .error e, fs := fs, keyPath := keyPath }
    | .ok plaintext =>
        let fs1 := fsWrite fs newKeyPath (.bytes newKey)
        match EnvxA.loadKey fs1 newKeyPath with
        | .error e => { result := .error e, fs := fs1, keyPath := newKeyPath }
        | .ok key =>
            match encryptValues A rng plaintext key with
            | .error e => { result := .error e, fs := fs1, keyPath := newKeyPath }
            | .ok (nm, vm) =>
                { result := .ok (),
                  fs := fsWrite fs1 envxPath
                    (.container (buildEnvxFile { type := "none", salt := none }
                      nm vm now (some keyPath))),
                  keyPath := newKeyPath }

/-- A concrete AEAD instance used to evaluate the embedding on closed
inputs: the "ciphertext" is the code-point sequence of the plaintext and
the tag is 16 zero bytes.  (Only its interface properties matter; theorems
about the embedding are stated for arbitrary schemes.) -/
def toyEnc (_key _nonce : List Nat) (p : String) : Except String (List Nat × List Nat) :=
  .ok (List.replicate 16 0, p.data.map Char.toNat)

/-- Decryption side of the toy scheme. -/
def toyDec (_key _nonce _tag ct : List Nat) : Option String :=
  some (String.mk (ct.map Char.ofNat))

/-- The toy scheme. -/
def toyScheme : AeadScheme := { enc := toyEnc, dec := toyDec }

/-- An AEAD instance whose encryption always throws, to drive the embedding
through its failure paths on closed inputs. -/
def failScheme : AeadScheme :=
  { enc := fun _ _ _ => .error "cipher failure", dec := fun _ _ _ _ => none }

/-- A constant RNG stream (every draw returns the same bytes). -/
def constRng (bs : List Nat) : Nat → List Nat := fun _ => bs

/-- A concrete 32-byte key for closed evaluations. -/
def key32 : List Nat := List.replicate 32 0

/-- A concrete Argon2id primitive for closed evaluations of the KDF
wrapper: the "key" is the salt followed by the password. -/
def toyKdfPrimA (pw salt : List Nat) (_p : Argon2Params) : Except String (List Nat) :=
  .ok (salt ++ pw)

/-- A concrete scrypt primitive for closed evaluations. -/
def toyKdfPrimS (pw salt : List Nat) (_p : ScryptParams) : Except String (List Nat) :=
  .ok (salt ++ pw)

/-- Concrete candidate with mismatched key sets (nonce under FOO, value
under BAR), otherwise well-formed. -/
def mismatchCandidate : EnvxCandidate :=
  { version := 1, cipher := "aes-256-gcm", kdf := { type := "none", salt := none },
    nonce_map := [("FOO", "AAAA")], values := [("BAR", "BBBB")],
    metaCreatedAt := "2024-12-10T00:00:00Z", metaRotatedFrom := none }

/-- Concrete candidate with matching key sets (in different order). -/
def matchCandidate : EnvxCandidate :=
  { version := 1, cipher := "aes-256-gcm", kdf := { type := "none", salt := none },
    nonce_map := [("A", "n1"), ("B", "n2")], values := [("B", "c2"), ("A", "c1")],
    metaCreatedAt := "2024-12-10T00:00:00Z", metaRotatedFrom := none }

/-- A stored container with no entries, for closed facade evaluations. -/
def emptyContainer : EnvxCandidate :=
  buildEnvxFile { type := "none", salt := none } [] [] "2024-12-10T00:00:00Z" none

/-- A filesystem holding a 32-byte key file and an empty container. -/
def rotFs0 : EnvxFs := [("k.key", .bytes key32), ("file.envx", .container emptyContainer)]

/-- A concrete cipher-map entry: tag of 16 zero bytes followed by the toy
encryption of "x" (code point 120). -/
def cipher17 : List Nat := List.replicate 16 0 ++ [120]

/-- Concrete cipher map for closed decryption runs. -/
def cmap0 : List (String × String) := [("API_KEY", b64encode cipher17)]

/-- Concrete nonce map matching `cmap0`. -/
def nmap0 : List (String × String) := [("API_KEY", b64encode (List.replicate 12 7))]

/-- `nmap0` extended with an entry whose name occurs in no cipher map (its
value is not even base64). -/
def nmap0x : List (String × String) := nmap0 ++ [("EXTRA", "????")]

/-- A concrete secret set with an ordinary, an empty and a multi-line
value. -/
def secrets0 : List (String × String) :=
  [("API_KEY", "sk-1234"), ("EMPTY", ""), ("MULTI", "line1\nline2")]

theorem charToSix_sixToChar : ∀ s : Fin 64, charToSix (sixToChar s.val) = some s.val := by
  decide

theorem charToSix_of_lt64 {s : Nat} (h : s < 64) : charToSix (sixToChar s) = some s :=
  charToSix_sixToChar ⟨s, h⟩

theorem bytesToSextets_lt64 : ∀ bs : List Nat, (∀ b ∈ bs, b < 256) →
    ∀ x ∈ bytesToSextets bs, x < 64 := by
  intro bs
  induction bs using bytesToSextets.induct with
  | case1 => intro _ x hx; simp [bytesToSextets] at hx
  | case2 b1 =>
      intro h x hx
      have h1 : b1 < 256 := h b1 (by simp)
      simp [bytesToSextets] at hx
      rcases hx with hx | hx <;> omega
  | case3 b1 b2 =>
      intro h x hx
      have h1 : b1 < 256 := h b1 (by simp)
      have h2 : b2 < 256 := h b2 (by simp)
      simp [bytesToSextets] at hx
      rcases hx with hx | hx | hx <;> omega
  | case4 b1 b2 b3 rest ih =>
      intro h x hx
      have h1 : b1 < 256 := h b1 (by simp)
      have h2 : b2 < 256 := h b2 (by simp)
      have h3 : b3 < 256 := h b3 (by simp)
      simp [bytesToSextets] at hx
      rcases hx with hx | hx | hx | hx | hx
      · omega
      · omega
      · omega
      · omega
      · exact ih (fun b hb => h b (by simp [hb])) x hx

theorem sextets_bytes_roundtrip : ∀ bs : List Nat, (∀ b ∈ bs, b < 256) →
    sextetsToBytes (bytesToSextets bs) = bs := by
  intro bs
  induction bs using bytesToSextets.induct with
  | case1 => intro _; rfl
  | case2 b1 =>
      intro h
      have h1 : b1 < 256 := h b1 (by simp)
      simp only [bytesToSextets, sextetsToBytes, List.cons.injEq, and_true]
      omega
  | case3 b1 b2 =>
      intro h
      have h1 : b1 < 256 := h b1 (by simp)
      have h2 : b2 < 256 := h b2 (by simp)
      simp only [bytesToSextets, sextetsToBytes, List.cons.injEq, and_true]
      refine ⟨by omega, by omega⟩
  | case4 b1 b2 b3 rest ih =>
      intro h
      have h1 : b1 < 256 := h b1 (by simp)
      have h2 : b2 < 256 := h b2 (by simp)
      have h3 : b3 < 256 := h b3 (by simp)
      simp only [bytesToSextets, sextetsToBytes, List.cons.injEq]
      refine ⟨by omega, by omega, by omega, ih ?_⟩
      intro b hb
      exact h b (by simp [hb])

theorem charToSix_pad_none (n : Nat) : ∀ c ∈ b64pad n, charToSix c = none := by
  intro c hc
  have hceq : c = '=' := by
    unfold b64pad at hc
    split at hc
    · rcases List.mem_cons.mp hc with h | h
      · exact h
      · simpa using h
    · split at hc
      · simpa using hc
      · simp at hc
  subst hceq
  decide

theorem filterMap_charToSix_map_sixToChar :
    ∀ xs : List Nat, (∀ x ∈ xs, x < 64) →
      List.filterMap charToSix (xs.map sixToChar) = xs := by
  intro xs
  induction xs with
  | nil => intro _; rfl
  | cons x xs ih =>
      intro h
      have hx : x < 64 := h x (by simp)
      simp only [List.map_cons, List.filterMap_cons, charToSix_of_lt64 hx]
      rw [ih (fun y hy => h y (by simp [hy]))]

theorem b64_roundtrip (bs : List Nat) (h : ∀ b ∈ bs, b < 256) :
    b64decode (b64encode bs) = bs := by
  unfold b64decode b64encode
  have hpad : List.filterMap charToSix (b64pad bs.length) = [] := by
    rw [List.filterMap_eq_nil_iff]
    exact fun c hc => charToSix_pad_none bs.length c hc
  simp only [List.filterMap_append, hpad, List.append_nil,
    filterMap_charToSix_map_sixToChar _ (bytesToSextets_lt64 bs h)]
  exact sextets_bytes_roundtrip bs h

theorem b64encode_ne_empty (bs : List Nat) (hbs : bs ≠ []) : b64encode bs ≠ "" := by
  unfold b64encode
  intro hcontra
  have : (bytesToSextets bs).map sixToChar ++ b64pad bs.length = [] := by
    have := congrArg String.data hcontra
    simpa using this
  rcases List.append_eq_nil.mp this with ⟨h1, _⟩
  have h2 : bytesToSextets bs = [] := by
    cases hb : bytesToSextets bs with
    | nil => rfl
    | cons y ys => rw [hb] at h1; simp at h1
  cases bs with
  | nil => exact hbs rfl
  | cons b rest =>
      cases rest with
      | nil => simp [bytesToSextets] at h2
      | cons b2 rest2 =>
          cases rest2 with
          | nil => simp [bytesToSextets] at h2
          | cons b3 rest3 => simp [bytesToSextets] at h2

/-- Claim C5: for every plaintext map, cipher map and nonce map, and every
key whose length is not exactly 32 bytes, `encryptValues` and both decrypt
implementations fail with the invalid-key-length `DecryptionError` before
touching any value: the result is that error and no ciphertext or plaintext
entry is produced for any entry of the batch. -/
theorem cipher_key_length_gate (A : AeadScheme) (rng : Nat → List Nat)
    (plaintext encrypted nonceMap : List (String × String)) (key : List Nat)
    (h : key.length ≠ 32) :
    encryptValues A rng plaintext key =
      .error (.decryption
        ("Invalid key length: expected 32 bytes, got " ++ toString key.length ++ " bytes")) ∧
    decryptValues A encrypted nonceMap key =
      .error (.decryption "Invalid key length, expected 32 bytes") ∧
    decryptValuesStrict A encrypted nonceMap key =
      .error (.decryption
        ("Invalid key length: expected 32 bytes, got " ++ toString key.length ++ " bytes")) := by
  refine ⟨?_, ?_, ?_⟩ <;>
    simp [encryptValues, decryptValues, decryptValuesStrict, h]

/-- Witness for `cipher_key_length_gate` at a 16-byte key. -/
theorem cipher_key_length_gate_witness :
    (List.replicate 16 0 : List Nat).length ≠ 32 ∧
    encryptValues toyScheme (constRng (List.replicate 12 0)) [("API_KEY", "x")]
        (List.replicate 16 0) =
      .error (.decryption "Invalid key length: expected 32 bytes, got 16 bytes") ∧
    decryptValues toyScheme [("API_KEY", "x")] [] (List.replicate 16 0) =
      .error (.decryption "Invalid key length, expected 32 bytes") :=
  ⟨by decide,
   (cipher_key_length_gate toyScheme (constRng (List.replicate 12 0)) [("API_KEY", "x")]
      [("API_KEY", "x")] [] (List.replicate 16 0) (by decide)).1,
   (cipher_key_length_gate toyScheme (constRng (List.replicate 12 0)) [("API_KEY", "x")]
      [("API_KEY", "x")] [] (List.replicate 16 0) (by decide)).2.1⟩

/-- Claim C3 (evaluation at the failing input): `encryptValues` keeps no
record of nonces already used in the batch.  With an RNG that returns the
same 12 bytes on every draw, a two-entry batch encrypts successfully and
the emitted nonce map carries the identical nonce for both entries; no
NonceCollision error exists anywhere in the embedded code (the error type
`EnvxErr` mirrors all error classes of the source and has no such kind). -/
theorem encryptValues_accepts_duplicate_nonce :
    encryptValues toyScheme (constRng (List.replicate 12 0))
        [("API_KEY", "x"), ("DEBUG", "y")] key32 =
      .ok ([("API_KEY", b64encode (List.replicate 12 0)),
            ("DEBUG", b64encode (List.replicate 12 0))],
           [("API_KEY", b64encode (List.replicate 16 0 ++ [120])),
            ("DEBUG", b64encode (List.replicate 16 0 ++ [121]))]) := by
  rfl

/-- Claim C6: key derivation is deterministic in its inputs — with a pinned
salt, two calls with identical password, salt value and parameters return
identical outcomes even when the ambient RNG stream differs between the
calls — and the wrappers pass the pinned salt through to the underlying
primitive unchanged, so whenever the Argon2id/scrypt primitive maps two
salts to different keys (all else equal), the derived keys differ. -/
theorem deriveKey_deterministic_salt_sensitive
    (primA : List Nat → List Nat → Argon2Params → Except String (List Nat))
    (primS : List Nat → List Nat → ScryptParams → Except String (List Nat))
    (pw s s1 s2 f1 f2 : List Nat) (pa : Argon2Params) (ps : ScryptParams) :
    (deriveKeyArgon2id primA pw pa (some s) f1 =
      deriveKeyArgon2id primA pw pa (some s) f2) ∧
    (deriveKeyScrypt primS pw ps (some s) f1 =
      deriveKeyScrypt primS pw ps (some s) f2) ∧
    (∀ k1 k2 r1 r2, primA pw s1 pa = .ok k1 → primA pw s2 pa = .ok k2 → k1 ≠ k2 →
      (deriveKeyArgon2id primA pw pa (some s1) f1).result = .ok r1 →
      (deriveKeyArgon2id primA pw pa (some s2) f2).result = .ok r2 →
      r1.key ≠ r2.key) ∧
    (∀ k1 k2 r1 r2, primS pw s1 ps = .ok k1 → primS pw s2 ps = .ok k2 → k1 ≠ k2 →
      (deriveKeyScrypt primS pw ps (some s1) f1).result = .ok r1 →
      (deriveKeyScrypt primS pw ps (some s2) f2).result = .ok r2 →
      r1.key ≠ r2.key) := by
  refine ⟨rfl, rfl, ?_, ?_⟩
  · intro k1 k2 r1 r2 h1 h2 hne hr1 hr2
    unfold deriveKeyArgon2id at hr1 hr2
    simp only [Option.getD_some, h1, h2] at hr1 hr2
    cases hr1
    cases hr2
    simpa using hne
  · intro k1 k2 r1 r2 h1 h2 hne hr1 hr2
    unfold deriveKeyScrypt at hr1 hr2
    simp only [Option.getD_some, h1, h2] at hr1 hr2
    cases hr1
    cases hr2
    simpa using hne

/-- Witness for `deriveKey_deterministic_salt_sensitive` at the toy
primitive, salt `16 × 1` versus `16 × 2`, differing fresh-RNG streams. -/
theorem deriveKey_deterministic_salt_sensitive_witness :
    (deriveKeyArgon2id toyKdfPrimA [7] DEFAULT_ARGON2_PARAMS
        (some (List.replicate 16 1)) [3] =
      deriveKeyArgon2id toyKdfPrimA [7] DEFAULT_ARGON2_PARAMS
        (some (List.replicate 16 1)) [4]) ∧
    (KdfSuccess.key
        { key := List.replicate 16 1 ++ [7], metaType := "argon2id",
          metaSalt := b64encode (List.replicate 16 1) } ≠
      KdfSuccess.key
        { key := List.replicate 16 2 ++ [7], metaType := "argon2id",
          metaSalt := b64encode (List.replicate 16 2) }) :=
  ⟨(deriveKey_deterministic_salt_sensitive toyKdfPrimA toyKdfPrimS [7]
      (List.replicate 16 1) (List.replicate 16 1) (List.replicate 16 2) [3] [4]
      DEFAULT_ARGON2_PARAMS DEFAULT_SCRYPT_PARAMS).1,
   (deriveKey_deterministic_salt_sensitive toyKdfPrimA toyKdfPrimS [7]
      (List.replicate 16 1) (List.replicate 16 1) (List.replicate 16 2) [3] [4]
      DEFAULT_ARGON2_PARAMS DEFAULT_SCRYPT_PARAMS).2.2.1 _ _ _ _ rfl rfl
      (by decide) rfl rfl⟩

/-- Claim C9: when a caller-supplied salt is passed, both KDF wrappers
zero-fill that buffer on every exit path before returning — since the
returned `salt` field aliases it, it reads as 16 zero bytes for a 16-byte
salt — while the returned `meta.salt` string still holds the base64 of the
original salt (stringified before the `finally` block ran); a salt
generated internally by the call is not wiped. -/
theorem kdf_wipes_supplied_salt
    (primA : List Nat → List Nat → Argon2Params → Except String (List Nat))
    (primS : List Nat → List Nat → ScryptParams → Except String (List Nat))
    (pw b f : List Nat) (pa : Argon2Params) (ps : ScryptParams)
    (h16 : b.length = 16) :
    ((deriveKeyArgon2id primA pw pa (some b) f).saltBufAfter = List.replicate 16 0) ∧
    (∀ r, (deriveKeyArgon2id primA pw pa (some b) f).result = .ok r →
      r.metaSalt = b64encode b) ∧
    ((deriveKeyArgon2id primA pw pa none f).saltBufAfter = f) ∧
    ((deriveKeyScrypt primS pw ps (some b) f).saltBufAfter = List.replicate 16 0) ∧
    (∀ r, (deriveKeyScrypt primS pw ps (some b) f).result = .ok r →
      r.metaSalt = b64encode b) ∧
    ((deriveKeyScrypt primS pw ps none f).saltBufAfter = f) := by
  refine ⟨?_, ?_, rfl, ?_, ?_, rfl⟩
  · simp [deriveKeyArgon2id, wipeBufferModel, h16]
  · intro r hr
    unfold deriveKeyArgon2id at hr
    simp only [Option.getD_some] at hr
    cases hp : primA pw b pa with
    | ok k => rw [hp] at hr; cases hr; rfl
    | error e => rw [hp] at hr; cases hr
  · simp [deriveKeyScrypt, wipeBufferModel, h16]
  · intro r hr
    unfold deriveKeyScrypt at hr
    simp only [Option.getD_some] at hr
    cases hp : primS pw b ps with
    | ok k => rw [hp] at hr; cases hr; rfl
    | error e => rw [hp] at hr; cases hr

/-- Witness for `kdf_wipes_supplied_salt` at the toy primitive, the salt
`16 × 5` and the fresh stream `[1, 2, 3]`. -/
theorem kdf_wipes_supplied_salt_witness :
    ((List.replicate 16 5 : List Nat).length = 16) ∧
    ((deriveKeyArgon2id toyKdfPrimA [9] DEFAULT_ARGON2_PARAMS
        (some (List.replicate 16 5)) [1, 2, 3]).saltBufAfter = List.replicate 16 0) ∧
    ((deriveKeyArgon2id toyKdfPrimA [9] DEFAULT_ARGON2_PARAMS
        none [1, 2, 3]).saltBufAfter = [1, 2, 3]) ∧
    (KdfSuccess.metaSalt
        { key := List.replicate 16 5 ++ [9], metaType := "argon2id",
          metaSalt := b64encode (List.replicate 16 5) } =
      b64encode (List.replicate 16 5)) :=
  ⟨by decide,
   (kdf_wipes_supplied_salt toyKdfPrimA toyKdfPrimS [9] (List.replicate 16 5) [1, 2, 3]
      DEFAULT_ARGON2_PARAMS DEFAULT_SCRYPT_PARAMS (by decide)).1,
   (kdf_wipes_supplied_salt toyKdfPrimA toyKdfPrimS [9] (List.replicate 16 5) [1, 2, 3]
      DEFAULT_ARGON2_PARAMS DEFAULT_SCRYPT_PARAMS (by decide)).2.2.1,
   (kdf_wipes_supplied_salt toyKdfPrimA toyKdfPrimS [9] (List.replicate 16 5) [1, 2, 3]
      DEFAULT_ARGON2_PARAMS DEFAULT_SCRYPT_PARAMS (by decide)).2.1 _ rfl⟩

theorem decryptEntry_congr (A : AeadScheme) (key : List Nat)
    {N Nx : List (String × String)} (name c : String)
    (h : List.lookup name Nx = List.lookup name N) :
    decryptEntry A key Nx name c = decryptEntry A key N name c := by
  unfold decryptEntry
  rw [h]

theorem decryptLoop_congr (A : AeadScheme) (key : List Nat)
    {N Nx : List (String × String)} (C : List (String × String))
    (h : ∀ n ∈ C.map Prod.fst, List.lookup n Nx = List.lookup n N) :
    decryptLoop A key Nx C = decryptLoop A key N C := by
  induction C with
  | nil => rfl
  | cons p rest ih =>
      obtain ⟨name, c⟩ := p
      simp only [decryptLoop]
      rw [ih (fun n hn => h n (by simp [hn])),
        decryptEntry_congr A key name c (h name (by simp))]

theorem decryptLoop_fail_nonempty (A : AeadScheme) (key : List Nat)
    (N : List (String × String)) :
    ∀ C : List (String × String),
      (∃ p ∈ C, ∃ r, decryptEntry A key N p.1 p.2 = .error r) →
      (decryptLoop A key N C).2 ≠ [] := by
  intro C
  induction C with
  | nil => rintro ⟨p, hp, _⟩; simp at hp
  | cons hd rest ih =>
      rintro ⟨p, hp, r, hr⟩
      obtain ⟨name, c⟩ := hd
      simp only [decryptLoop]
      rcases List.mem_cons.mp hp with hph | hpt
      · subst hph
        rw [hr]
        simp
      · cases hE : decryptEntry A key N name c with
        | ok v =>
            simpa using ih ⟨p, hpt, r, hr⟩
        | error e => simp

theorem strictLoop_fail (A : AeadScheme) (key : List Nat)
    (N : List (String × String)) :
    ∀ C : List (String × String),
      (∃ p ∈ C, ∃ r, decryptEntry A key N p.1 p.2 = .error r) →
      (decryptValuesStrict.strictLoop A key N C).isOk = false := by
  intro C
  induction C with
  | nil => rintro ⟨p, hp, _⟩; simp at hp
  | cons hd rest ih =>
      rintro ⟨p, hp, r, hr⟩
      obtain ⟨name, c⟩ := hd
      rcases List.mem_cons.mp hp with hph | hpt
      · subst hph
        simp only [decryptValuesStrict.strictLoop, hr]
        cases r <;> rfl
      · cases hE : decryptEntry A key N name c with
        | ok v =>
            simp only [decryptValuesStrict.strictLoop, hE]
            have := ih ⟨p, hpt, r, hr⟩
            cases hS : decryptValuesStrict.strictLoop A key N rest with
            | ok w => rw [hS] at this; simp [Except.isOk, Except.toBool] at this
            | error e => rfl
        | error e =>
            simp only [decryptValuesStrict.strictLoop, hE]
            cases e <;> rfl

theorem decryptLoop_ok_keys (A : AeadScheme) (key : List Nat)
    (N : List (String × String)) :
    ∀ C : List (String × String), (decryptLoop A key N C).2 = [] →
      (decryptLoop A key N C).1.map Prod.fst = C.map Prod.fst := by
  intro C
  induction C with
  | nil => intro _; rfl
  | cons hd rest ih =>
      intro h
      obtain ⟨name, c⟩ := hd
      simp only [decryptLoop] at h ⊢
      cases hE : decryptEntry A key N name c with
      | ok v =>
          simp only [hE] at h ⊢
          simp [ih h]
      | error e =>
          simp only [hE] at h
          simp at h

/-- Claim C2: `decryptValues` is all-or-nothing — for every cipher map,
nonce map and 32-byte key, if any single entry fails (missing nonce,
too-short ciphertext, or failed authentication), the whole call returns the
single batch `DecryptionError` and no plaintext map reaches the caller;
the second decrypt implementation (`decryptValuesStrict`) likewise returns
an error.  (Per-entry failure is expressed through `decryptEntry`, the
embedded shared entry processing.) -/
theorem decryptValues_all_or_nothing
    (A : AeadScheme) (encrypted nonceMap : List (String × String)) (key : List Nat)
    (hkey : key.length = 32)
    (h : ∃ p ∈ encrypted, ∃ r, decryptEntry A key nonceMap p.1 p.2 = .error r) :
    decryptValues A encrypted nonceMap key =
      .error (.decryption "Decryption failed for one or more values") ∧
    (decryptValuesStrict A encrypted nonceMap key).isOk = false := by
  constructor
  · have hne : (decryptLoop A key nonceMap encrypted).2 ≠ [] :=
      decryptLoop_fail_nonempty A key nonceMap encrypted h
    have hlen : (decryptLoop A key nonceMap encrypted).2.length > 0 :=
      List.length_pos.mpr hne
    simp only [decryptValues, hkey]
    rw [if_neg (by omega), if_pos hlen]
  · simp only [decryptValuesStrict, hkey]
    rw [if_neg (by omega)]
    exact strictLoop_fail A key nonceMap encrypted h

/-- Witness for `decryptValues_all_or_nothing`: a one-entry cipher map with
an empty nonce map (the entry fails with a missing nonce). -/
theorem decryptValues_all_or_nothing_witness :
    decryptEntry toyScheme key32 [] "API_KEY" "xyz" = .error .missingNonce ∧
    decryptValues toyScheme [("API_KEY", "xyz")] [] key32 =
      .error (.decryption "Decryption failed for one or more values") ∧
    (decryptValuesStrict toyScheme [("API_KEY", "xyz")] [] key32).isOk = false :=
  ⟨rfl,
   (decryptValues_all_or_nothing toyScheme [("API_KEY", "xyz")] [] key32 (by decide)
      ⟨("API_KEY", "xyz"), by simp, .missingNonce, rfl⟩).1,
   (decryptValues_all_or_nothing toyScheme [("API_KEY", "xyz")] [] key32 (by decide)
      ⟨("API_KEY", "xyz"), by simp, .missingNonce, rfl⟩).2⟩

theorem strictLoop_congr (A : AeadScheme) (key : List Nat)
    {N Nx : List (String × String)} (C : List (String × String))
    (h : ∀ n ∈ C.map Prod.fst, List.lookup n Nx = List.lookup n N) :
    decryptValuesStrict.strictLoop A key Nx C =
      decryptValuesStrict.strictLoop A key N C := by
  induction C with
  | nil => rfl
  | cons p rest ih =>
      obtain ⟨name, c⟩ := p
      simp only [decryptValuesStrict.strictLoop]
      rw [decryptEntry_congr A key name c (h name (by simp)),
        ih (fun n hn => h n (by simp [hn]))]

theorem strictLoop_ok_keys (A : AeadScheme) (key : List Nat)
    (N : List (String × String)) :
    ∀ (C : List (String × String)) r,
      decryptValuesStrict.strictLoop A key N C = .ok r →
      r.map Prod.fst = C.map Prod.fst := by
  intro C
  induction C with
  | nil =>
      intro r h
      simp only [decryptValuesStrict.strictLoop] at h
      cases h
      rfl
  | cons p rest ih =>
      intro r h
      obtain ⟨name, c⟩ := p
      simp only [decryptValuesStrict.strictLoop] at h
      cases hE : decryptEntry A key N name c with
      | error e => cases e <;> simp only [hE] at h <;> cases h
      | ok v =>
          simp only [hE] at h
          cases hS : decryptValuesStrict.strictLoop A key N rest with
          | error e2 => rw [hS] at h; cases h
          | ok rr =>
              rw [hS] at h
              cases h
              simp [ih rr hS]

/-- Claim C10: both decrypt implementations iterate only over the cipher
map — entries of the nonce map whose name occurs in no cipher-map entry are
never consulted (any nonce map agreeing on the cipher map's names gives the
identical outcome, so a strict superset decrypts identically), and a
successful result has exactly the cipher map's keys, in order.  Stated for
`decryptValues` of `src/src/crypto/decrypt.ts` and for the second
implementation `decryptValuesStrict`. -/
theorem decryptValues_ignores_extra_nonces
    (A : AeadScheme) (C N Nx : List (String × String)) (key : List Nat)
    (hagree : ∀ n ∈ C.map Prod.fst, List.lookup n Nx = List.lookup n N) :
    decryptValues A C Nx key = decryptValues A C N key ∧
    (∀ r, decryptValues A C N key = .ok r → r.map Prod.fst = C.map Prod.fst) ∧
    decryptValuesStrict A C Nx key = decryptValuesStrict A C N key ∧
    (∀ r, decryptValuesStrict A C N key = .ok r →
      r.map Prod.fst = C.map Prod.fst) := by
  refine ⟨?_, ?_, ?_, ?_⟩
  · simp only [decryptValues]
    rw [decryptLoop_congr A key C hagree]
  · intro r hr
    simp only [decryptValues] at hr
    split at hr
    · cases hr
    · split at hr
      · cases hr
      · rename_i hlen
        have hnil : (decryptLoop A key N C).2 = [] :=
          List.length_eq_zero.mp (by omega)
        have hkeys := decryptLoop_ok_keys A key N C hnil
        cases hr
        exact hkeys
  · simp only [decryptValuesStrict]
    rw [strictLoop_congr A key C hagree]
  · intro r hr
    simp only [decryptValuesStrict] at hr
    split at hr
    · cases hr
    · exact strictLoop_ok_keys A key N C r hr

/-- Witness for `decryptValues_ignores_extra_nonces`: a nonce map with an
extra entry (not even base64) under a name absent from the cipher map
changes nothing for either implementation, and the successful result has
the cipher map's keys. -/
theorem decryptValues_ignores_extra_nonces_witness :
    List.lookup "API_KEY" nmap0x = List.lookup "API_KEY" nmap0 ∧
    decryptValues toyScheme cmap0 nmap0x key32 = decryptValues toyScheme cmap0 nmap0 key32 ∧
    decryptValuesStrict toyScheme cmap0 nmap0x key32 =
      decryptValuesStrict toyScheme cmap0 nmap0 key32 ∧
    ([("API_KEY", "x")] : List (String × String)).map Prod.fst = cmap0.map Prod.fst :=
  ⟨by decide,
   (decryptValues_ignores_extra_nonces toyScheme cmap0 nmap0 nmap0x key32
      (by decide)).1,
   (decryptValues_ignores_extra_nonces toyScheme cmap0 nmap0 nmap0x key32
      (by decide)).2.2.1,
   (decryptValues_ignores_extra_nonces toyScheme cmap0 nmap0 nmap0x key32
      (by decide)).2.2.2 [("API_KEY", "x")] rfl⟩

theorem isPrefixOf_self (l : List Char) : l.isPrefixOf l = true := by
  induction l with
  | nil => rfl
  | cons c cs ih => simp [List.isPrefixOf, ih]

theorem infixOfAux_suffix (ns : List Char) : ∀ pre : List Char,
    infixOfAux ns (pre ++ ns) = true := by
  intro pre
  induction pre with
  | nil =>
      cases ns with
      | nil => rfl
      | cons c cs =>
          simp only [List.nil_append, infixOfAux]
          rw [isPrefixOf_self]
          rfl
  | cons p ps ih =>
      have hstep : infixOfAux ns ((p :: ps) ++ ns) =
          (ns.isPrefixOf ((p :: ps) ++ ns) || infixOfAux ns (ps ++ ns)) := rfl
      rw [hstep, ih, Bool.or_true]

theorem strContains_append_self (pre k : String) : strContains (pre ++ k) k = true := by
  unfold strContains
  rw [String.data_append]
  exact infixOfAux_suffix k.data pre.data

theorem lookup_mem_pair {m : List (String × String)} {k v : String}
    (h : List.lookup k m = some v) : (k, v) ∈ m := by
  induction m with
  | nil => cases h
  | cons p rest ih =>
      obtain ⟨k1, v1⟩ := p
      by_cases he : k = k1
      · subst he
        simp [List.lookup] at h
        rw [← h]
        exact List.mem_cons_self _ _
      · have hbeq : (k == k1) = false := beq_eq_false_iff_ne.mpr he
        simp only [List.lookup, hbeq] at h
        exact List.mem_cons_of_mem _ (ih h)

theorem findFalsy_none_lookup {m : List (String × String)} :
    ∀ keys, findFalsy m keys = none →
      ∀ k ∈ keys, ∃ v, List.lookup k m = some v ∧ v ≠ "" := by
  intro keys
  induction keys with
  | nil => intro _ k hk; simp at hk
  | cons k1 rest ih =>
      intro h k hk
      cases hl : List.lookup k1 m with
      | none => simp [findFalsy, hl] at h
      | some v =>
          by_cases hv : v = ""
          · simp [findFalsy, hl, hv] at h
          · simp only [findFalsy, hl, if_neg hv] at h
            rcases List.mem_cons.mp hk with he | hkr
            · exact he ▸ ⟨v, hl, hv⟩
            · exact ih h k hkr

theorem findFalsy_some_spec {m : List (String × String)} :
    ∀ keys k, findFalsy m keys = some k →
      k ∈ keys ∧ (List.lookup k m = none ∨ List.lookup k m = some "") := by
  intro keys
  induction keys with
  | nil => intro k h; simp [findFalsy] at h
  | cons k1 rest ih =>
      intro k h
      cases hl : List.lookup k1 m with
      | none =>
          simp [findFalsy, hl] at h
          exact h ▸ ⟨List.mem_cons_self _ _, Or.inl hl⟩
      | some v =>
          by_cases hv : v = ""
          · simp [findFalsy, hl, hv] at h
            exact h ▸ ⟨List.mem_cons_self _ _, Or.inr (hv ▸ hl)⟩
          · simp only [findFalsy, hl, if_neg hv] at h
            obtain ⟨hmem, hor⟩ := ih k h
            exact ⟨List.mem_cons_of_mem _ hmem, hor⟩

theorem findFalsy_eq_none {m : List (String × String)} :
    ∀ keys, (∀ k ∈ keys, ∃ v, List.lookup k m = some v ∧ v ≠ "") →
      findFalsy m keys = none := by
  intro keys
  induction keys with
  | nil => intro _; rfl
  | cons k1 rest ih =>
      intro h
      obtain ⟨v, hl, hv⟩ := h k1 (List.mem_cons_self _ _)
      simp only [findFalsy, hl, if_neg hv]
      exact ih (fun k hk => h k (List.mem_cons_of_mem _ hk))

/-- Claim C4: `parseEnvx`/`validateEnvx` enforce the cross-field key-set
invariant.  For every schema-passing candidate whose nonce-map and
value-map entries are genuine base64 strings (non-empty): if the key sets
differ — some value key has no nonce entry, or some nonce key has no value
entry — validation fails with a ValidationError whose message names an
offending key; and a candidate whose key sets match is not rejected on this
ground (the two loops pass and it validates). -/
theorem validateEnvx_keyset_invariant (c : EnvxCandidate)
    (hschema : schemaCheck c = true)
    (hnm : ∀ p ∈ c.nonce_map, p.2 ≠ "")
    (hv : ∀ p ∈ c.values, p.2 ≠ "") :
    ((∃ k ∈ c.values.map Prod.fst, List.lookup k c.nonce_map = none) ∨
        (∃ k ∈ c.nonce_map.map Prod.fst, List.lookup k c.values = none) →
      ∃ k m, validateEnvx c = .error (.validation m) ∧ strContains m k = true ∧
        ((k ∈ c.values.map Prod.fst ∧ List.lookup k c.nonce_map = none) ∨
         (k ∈ c.nonce_map.map Prod.fst ∧ List.lookup k c.values = none))) ∧
    ((∀ k ∈ c.values.map Prod.fst, List.lookup k c.nonce_map ≠ none) →
      (∀ k ∈ c.nonce_map.map Prod.fst, List.lookup k c.values ≠ none) →
      validateEnvx c = .ok c) := by
  have hsc := hschema
  simp only [schemaCheck, Bool.and_eq_true, beq_iff_eq] at hsc
  obtain ⟨⟨hver, hciph⟩, _⟩ := hsc
  constructor
  · intro hdiff
    cases hf1 : findFalsy c.nonce_map (c.values.map Prod.fst) with
    | some k =>
        obtain ⟨hmem, hor⟩ := findFalsy_some_spec _ k hf1
        have hnone : List.lookup k c.nonce_map = none := by
          rcases hor with h | h
          · exact h
          · exact absurd rfl (hnm _ (lookup_mem_pair h))
        refine ⟨k, "Missing nonce for key " ++ k, ?_, strContains_append_self _ k,
          Or.inl ⟨hmem, hnone⟩⟩
        simp [validateEnvx, hschema, hf1]
    | none =>
        have hvalsOk := findFalsy_none_lookup _ hf1
        rcases hdiff with ⟨k, hk, hkn⟩ | ⟨k, hk, hkn⟩
        · obtain ⟨v, hlv, _⟩ := hvalsOk k hk
          rw [hkn] at hlv
          cases hlv
        · cases hf2 : findFalsy c.values (c.nonce_map.map Prod.fst) with
          | some k2 =>
              obtain ⟨hmem2, hor2⟩ := findFalsy_some_spec _ k2 hf2
              have hnone2 : List.lookup k2 c.values = none := by
                rcases hor2 with h | h
                · exact h
                · exact absurd rfl (hv _ (lookup_mem_pair h))
              refine ⟨k2, "Missing ciphertext for key " ++ k2, ?_,
                strContains_append_self _ k2, Or.inr ⟨hmem2, hnone2⟩⟩
              simp [validateEnvx, hschema, hf1, hf2]
          | none =>
              obtain ⟨v, hlv, _⟩ := findFalsy_none_lookup _ hf2 k hk
              rw [hkn] at hlv
              cases hlv
  · intro h1 h2
    have hf1 : findFalsy c.nonce_map (c.values.map Prod.fst) = none := by
      apply findFalsy_eq_none
      intro k hk
      cases hl : List.lookup k c.nonce_map with
      | none => exact absurd hl (h1 k hk)
      | some v => exact ⟨v, rfl, hnm _ (lookup_mem_pair hl)⟩
    have hf2 : findFalsy c.values (c.nonce_map.map Prod.fst) = none := by
      apply findFalsy_eq_none
      intro k hk
      cases hl : List.lookup k c.values with
      | none => exact absurd hl (h2 k hk)
      | some v => exact ⟨v, rfl, hv _ (lookup_mem_pair hl)⟩
    simp [validateEnvx, hschema, hf1, hf2, hver, hciph]

/-- Witness for `validateEnvx_keyset_invariant`: the mismatched candidate
(nonce under FOO, value under BAR) is rejected and the error message names
the offending key BAR; the matching candidate validates. -/
theorem validateEnvx_keyset_invariant_witness :
    validateEnvx mismatchCandidate ≠ .ok mismatchCandidate ∧
    validateEnvx mismatchCandidate = .error (.validation "Missing nonce for key BAR") ∧
    strContains "Missing nonce for key BAR" "BAR" = true ∧
    validateEnvx matchCandidate = .ok matchCandidate := by
  refine ⟨?_, rfl, by decide, ?_⟩
  · obtain ⟨k, m, hm, _, _⟩ :=
      (validateEnvx_keyset_invariant mismatchCandidate (by decide) (by decide)
        (by decide)).1 (Or.inl ⟨"BAR", by decide, by decide⟩)
    intro hcontra
    rw [hm] at hcontra
    cases hcontra
  · exact (validateEnvx_keyset_invariant matchCandidate (by decide) (by decide)
      (by decide)).2 (by decide) (by decide)

/-- Claim C7 (evaluation at the failing input): the FIRST `Envx.init`
implementation guards password mode with `if (!password)` only, and an
empty Buffer is truthy in JavaScript — so a present but zero-length
password is NOT rejected: derivation proceeds and the derived key file is
written.  The SECOND implementation checks `password.length === 0` as the
spec requires and rejects the same call without writing anything. -/
theorem initA_empty_password_accepted :
    EnvxA.init toyKdfPrimA [] ".envx.key" "password" (some [])
        (List.replicate 32 4) (List.replicate 16 9) =
      .ok ([(".envx.key", .bytes (List.replicate 16 9 ++ []))],
        { keyPath := ".envx.key", salt := some (b64encode (List.replicate 16 9)) }) ∧
    EnvxB.init toyKdfPrimA [] ".envx.key" "password" (some [])
        (List.replicate 32 4) (List.replicate 16 9) =
      .error (.generic "Password required for password-based key derivation") := by
  exact ⟨rfl, rfl⟩

/-- Claim C8: `rotateKey` writes the fresh key to `newKeyPath` and
reassigns the instance key path to `newKeyPath` BEFORE re-encrypting.
Whenever the guards pass and the decrypt step succeeds — regardless of
whether the re-encryption step then fails or succeeds — the final
filesystem contains the new key file at `newKeyPath` and the instance
`keyPath` field is `newKeyPath`, so every subsequent operation on the same
instance uses the new key path. -/
theorem rotateKey_switches_key_path
    (A : AeadScheme) (rng : Nat → List Nat) (fs : EnvxFs)
    (keyPath envxPath newKeyPath : String) (newKey : List Nat) (now : String)
    (pt : List (String × String))
    (hnew : fsExists fs newKeyPath = false)
    (hdec : EnvxA.decryptOp A fs keyPath envxPath = .ok pt) :
    List.lookup newKeyPath
        (EnvxA.rotateKey A rng fs keyPath envxPath newKeyPath newKey now).fs =
      some (.bytes newKey) ∧
    (EnvxA.rotateKey A rng fs keyPath envxPath newKeyPath newKey now).keyPath =
      newKeyPath := by
  have henvx : fsExists fs envxPath = true := by
    unfold EnvxA.decryptOp at hdec
    cases hl : List.lookup envxPath fs with
    | none => rw [hl] at hdec; cases hdec
    | some f =>
        unfold fsExists
        rw [hl]
        rfl
  have hne : (newKeyPath == envxPath) = false := by
    rw [beq_eq_false_iff_ne]
    intro heq
    rw [heq, henvx] at hnew
    cases hnew
  unfold EnvxA.rotateKey
  rw [hnew, henvx]
  simp only [Bool.false_eq_true, if_false, not_true, hdec]
  cases hlk : EnvxA.loadKey (fsWrite fs newKeyPath (.bytes newKey)) newKeyPath with
  | error e =>
      simp [fsWrite, List.lookup]
  | ok key =>
      cases hev : encryptValues A rng pt key with
      | error e =>
          simp [hev, fsWrite, List.lookup]
      | ok nmvm =>
          obtain ⟨nm, vm⟩ := nmvm
          simp [hev, fsWrite, List.lookup, hne]

/-- Witness for `rotateKey_switches_key_path`: a filesystem with a 32-byte
key and an empty container; the AEAD scheme used for re-encryption is the
always-failing one. -/
theorem rotateKey_switches_key_path_witness :
    fsExists rotFs0 "new.key" = false ∧
    List.lookup "new.key"
        (EnvxA.rotateKey failScheme (constRng []) rotFs0 "k.key" "file.envx" "new.key"
          (List.replicate 32 1) "2024-12-11T00:00:00Z").fs =
      some (.bytes (List.replicate 32 1)) ∧
    (EnvxA.rotateKey failScheme (constRng []) rotFs0 "k.key" "file.envx" "new.key"
        (List.replicate 32 1) "2024-12-11T00:00:00Z").keyPath = "new.key" :=
  ⟨by decide,
   (rotateKey_switches_key_path failScheme (constRng []) rotFs0 "k.key" "file.envx"
      "new.key" (List.replicate 32 1) "2024-12-11T00:00:00Z" [] (by decide) rfl).1,
   (rotateKey_switches_key_path failScheme (constRng []) rotFs0 "k.key" "file.envx"
      "new.key" (List.replicate 32 1) "2024-12-11T00:00:00Z" [] (by decide) rfl).2⟩

theorem toyDec_map (k n t : List Nat) (p : String) :
    toyDec k n t (p.data.map Char.toNat) = some p := by
  cases p with
  | mk d =>
      unfold toyDec
      refine congrArg some (congrArg String.mk ?_)
      rw [List.map_map]
      have h1 : ∀ c ∈ d, (Char.ofNat ∘ Char.toNat) c = c := fun c _ => Char.ofNat_toNat c
      rw [List.map_congr_left h1]
      simp

theorem encryptLoop_roundtrip (A : AeadScheme) (rng : Nat → List Nat) (key : List Nat)
    (hrlen : ∀ i, (rng i).length = 12)
    (hrbytes : ∀ i, ∀ b ∈ rng i, b < 256) :
    ∀ (S : List (String × String)) (i : Nat),
      (S.map Prod.fst).Nodup →
      (∀ j p, p ∈ S →
        ∃ tag ct, A.enc key (rng j) p.2 = .ok (tag, ct) ∧ tag.length = 16 ∧
          (∀ b ∈ tag, b < 256) ∧ (∀ b ∈ ct, b < 256) ∧
          A.dec key (rng j) tag ct = some p.2) →
      ∃ nm vm, encryptLoop A key rng i S = .ok (nm, vm) ∧
        vm.map Prod.fst = S.map Prod.fst ∧
        decryptLoop A key nm vm = (S, []) := by
  intro S
  induction S with
  | nil => intro i _ _; exact ⟨[], [], rfl, rfl, rfl⟩
  | cons hd rest ih =>
      intro i hnodup hA
      obtain ⟨name, value⟩ := hd
      obtain ⟨tag, ct, henc, htlen, htb, hcb, hdec⟩ :=
        hA i (name, value) (List.mem_cons_self _ _)
      have hnodup2 : (rest.map Prod.fst).Nodup := by
        simp only [List.map_cons, List.nodup_cons] at hnodup
        exact hnodup.2
      have hnotin : name ∉ rest.map Prod.fst := by
        simp only [List.map_cons, List.nodup_cons] at hnodup
        exact hnodup.1
      obtain ⟨nm, vm, hloop, hvmk, hdl⟩ :=
        ih (i + 1) hnodup2 (fun j p hp => hA j p (List.mem_cons_of_mem _ hp))
      refine ⟨(name, b64encode (rng i)) :: nm, (name, b64encode (tag ++ ct)) :: vm,
        ?_, ?_, ?_⟩
      · simp only [encryptLoop, henc, hloop]
      · simp [hvmk]
      · have hcong : decryptLoop A key ((name, b64encode (rng i)) :: nm) vm =
            decryptLoop A key nm vm := by
          apply decryptLoop_congr
          intro n hn
          have hnne : n ≠ name := by
            rw [hvmk] at hn
            intro he
            exact hnotin (he ▸ hn)
          have hbeq : (n == name) = false := beq_eq_false_iff_ne.mpr hnne
          simp [List.lookup, hbeq]
        have hhead : decryptEntry A key ((name, b64encode (rng i)) :: nm) name
            (b64encode (tag ++ ct)) = .ok value := by
          have hlk : List.lookup name ((name, b64encode (rng i)) :: nm) =
              some (b64encode (rng i)) := by simp [List.lookup]
          have hne2 : b64encode (rng i) ≠ "" := by
            apply b64encode_ne_empty
            intro hnil
            have h12 := hrlen i
            rw [hnil] at h12
            simp at h12
          have hcomb : b64decode (b64encode (tag ++ ct)) = tag ++ ct := by
            apply b64_roundtrip
            intro b hb
            rcases List.mem_append.mp hb with h | h
            · exact htb b h
            · exact hcb b h
          have hnonce : b64decode (b64encode (rng i)) = rng i :=
            b64_roundtrip (rng i) (hrbytes i)
          have hlen : ¬ (tag ++ ct).length < 16 := by
            rw [List.length_append, htlen]
            omega
          have htake : (tag ++ ct).take 16 = tag := by
            rw [← htlen]
            exact List.take_left tag ct
          have hdrop : (tag ++ ct).drop 16 = ct := by
            rw [← htlen]
            exact List.drop_left tag ct
          simp only [decryptEntry, hlk, if_neg hne2, hcomb, hnonce,
            htake, hdrop, hdec]
          rw [if_neg hlen]
        simp only [decryptLoop, hcong, hdl, hhead]

/-- Claim C1: round-trip.  For every secret set (association list with
distinct names; values arbitrary, including empty and multi-line) and every
32-byte key, provided the AEAD primitive satisfies the AES-256-GCM library
guarantees on the inputs used (encryption succeeds with a 16-byte tag and
byte-valued output, and decryption inverts it), `encryptValues` succeeds,
and feeding its cipher map and nonce map back through `decryptValues` with
the same key succeeds and returns exactly the original secret set. -/
theorem encrypt_decrypt_roundtrip
    (A : AeadScheme) (rng : Nat → List Nat) (S : List (String × String)) (key : List Nat)
    (hkey : key.length = 32)
    (hnodup : (S.map Prod.fst).Nodup)
    (hrlen : ∀ i, (rng i).length = 12)
    (hrbytes : ∀ i, ∀ b ∈ rng i, b < 256)
    (hAEAD : ∀ j p, p ∈ S →
      ∃ tag ct, A.enc key (rng j) p.2 = .ok (tag, ct) ∧ tag.length = 16 ∧
        (∀ b ∈ tag, b < 256) ∧ (∀ b ∈ ct, b < 256) ∧
        A.dec key (rng j) tag ct = some p.2) :
    (encryptValues A rng S key).isOk = true ∧
    ∀ nm vm, encryptValues A rng S key = .ok (nm, vm) →
      decryptValues A vm nm key = .ok S := by
  obtain ⟨nm, vm, hloop, hvmk, hdl⟩ :=
    encryptLoop_roundtrip A rng key hrlen hrbytes S 0 hnodup hAEAD
  have henc : encryptValues A rng S key = .ok (nm, vm) := by
    simp only [encryptValues]
    rw [if_neg (by omega)]
    exact hloop
  constructor
  · rw [henc]; rfl
  · intro nm2 vm2 h2
    rw [henc] at h2
    injection h2 with h3
    rw [← (Prod.mk.injEq nm vm nm2 vm2).mp h3 |>.1, ← (Prod.mk.injEq nm vm nm2 vm2).mp h3 |>.2]
    simp only [decryptValues]
    rw [if_neg (by omega)]
    simp [hdl]

/-- Witness for `encrypt_decrypt_roundtrip`: the toy scheme, a constant RNG
stream, the concrete secret set `secrets0` (ordinary, empty and multi-line
values) and a concrete 32-byte key; the decrypted result is exactly
`secrets0`. -/
theorem encrypt_decrypt_roundtrip_witness :
    (encryptValues toyScheme (constRng (List.replicate 12 7)) secrets0 key32).isOk = true ∧
    decryptValues toyScheme
        [("API_KEY", b64encode (List.replicate 16 0 ++ "sk-1234".data.map Char.toNat)),
         ("EMPTY", b64encode (List.replicate 16 0 ++ "".data.map Char.toNat)),
         ("MULTI", b64encode (List.replicate 16 0 ++ "line1\nline2".data.map Char.toNat))]
        [("API_KEY", b64encode (List.replicate 12 7)),
         ("EMPTY", b64encode (List.replicate 12 7)),
         ("MULTI", b64encode (List.replicate 12 7))] key32 = .ok secrets0 := by
  have hbounds : ∀ p ∈ secrets0, ∀ b ∈ p.2.data.map Char.toNat, b < 256 := by decide
  have h := encrypt_decrypt_roundtrip toyScheme (constRng (List.replicate 12 7))
    secrets0 key32 (by decide) (by decide) (fun i => rfl)
    (fun i b hb => by simp [constRng, List.eq_of_mem_replicate hb])
    (fun j p hp =>
      ⟨List.replicate 16 0, p.2.data.map Char.toNat, rfl, by decide, by decide,
        hbounds p hp, toyDec_map key32 (constRng (List.replicate 12 7) j)
          (List.replicate 16 0) p.2⟩)
  exact ⟨h.1, h.2 _ _ rfl⟩
